import Mathlib

/-!
Verification of the diandeng-service MQTT broker core: a shallow embedding
of the Device Cache, the topic ACL, the publish authorization pipeline,
the bridge (federation) layer and the delayed-task scheduler, with theorems
settling the specification claims about them.

Strings from the source are modelled as lists of characters (`Str`);
JavaScript `Map` objects are modelled as association lists with the same
set / get / delete semantics (first matching key; insertion order kept).
Timestamps (`Date.now()`) are natural numbers of milliseconds; arithmetic
comparisons that JavaScript performs on possibly-negative differences are
done in `Int`.
-/

namespace Diandeng

/-- Model of a JavaScript string: a list of characters. -/
abbrev Str := List Char

/-! ### Association-list model of JavaScript `Map` -/

/-- `Map.get(k)`: the value of the first entry with key `k`, if any. -/
def alGet {α β : Type} [DecidableEq α] : List (α × β) → α → Option β
  | [], _ => none
  | (k, v) :: rest, key => if k = key then some v else alGet rest key

/-- `Map.set(k, v)`: replace the value of the entry with key `k` in place,
or append a new entry when the key is absent. -/
def alSet {α β : Type} [DecidableEq α] : List (α × β) → α → β → List (α × β)
  | [], key, v => [(key, v)]
  | (k, w) :: rest, key, v =>
    if k = key then (k, v) :: rest else (k, w) :: alSet rest key v

/-- `Map.delete(k)`: remove the first entry with key `k`. -/
def alDel {α β : Type} [DecidableEq α] : List (α × β) → α → List (α × β)
  | [], _ => []
  | (k, w) :: rest, key => if k = key then rest else (k, w) :: alDel rest key

/-! ### JSON values and message envelopes -/

/-- A JSON value (numbers restricted to integers; the claims under study
involve only integral numbers). -/
inductive Json : Type where
  | null : Json
  | bool (b : Bool) : Json
  | num (n : Int) : Json
  | str (s : Str) : Json
  | arr (xs : List Json) : Json
  | obj (fields : List (Str × Json)) : Json

/-- JavaScript truthiness of a JSON value: `null`, `false`, `0` and the
empty string are falsy, everything else (objects and arrays included) is
truthy. -/
def jsTruthy : Json → Bool
  | .null => false
  | .bool b => b
  | .num n => n ≠ 0
  | .str s => s ≠ []
  | .arr _ => true
  | .obj _ => true

/-- The `ForwardMessage` envelope emitted on `/device/.../r` and
`/group/.../r` topics. -/
structure ForwardMessage : Type where
  fromDevice : Str
  fromGroup : Option Str := none
  data : Json

/-- A durable `Device` record as loaded from the identity store. -/
structure Device : Type where
  id : Nat
  uuid : Str
  client_id : Option Str
  username : Str
  password : Str
deriving DecidableEq

/-! ### Configuration (`config.message`), with the documented defaults -/

/-- The `config.message` block: `maxLength` (bytes, default 1024),
`publishRateLimit` (ms, default 1000), `expireTime` (ms, default 120000). -/
structure MessageConfig : Type where
  maxLength : Nat
  publishRateLimit : Nat
  expireTime : Nat
deriving DecidableEq

/-- The default configuration values from `config.ts`. -/
def defaultMessageConfig : MessageConfig :=
  { maxLength := 1024, publishRateLimit := 1000, expireTime := 120000 }

/-! ### Device Cache: publish-rate accounting (`cache.ts`) -/

/-- `DeviceCache.getLastPublishTime`: the recorded last publish time of a
client, `0` when none is recorded (`this.lastPublishTime.get(clientId) || 0`). -/
def getLastPublishTime (lpt : List (Str × Nat)) (clientId : Str) : Nat :=
  (alGet lpt clientId).getD 0

/-- `DeviceCache.setLastPublishTime`. -/
def setLastPublishTime (lpt : List (Str × Nat)) (clientId : Str)
    (timestamp : Nat) : List (Str × Nat) :=
  alSet lpt clientId timestamp

/-- `DeviceCache.checkPublishRate`: allow a publish and record `now` iff at
least `publishRateLimit` ms have passed since the last recorded publish.
Returns the decision together with the updated `lastPublishTime` map. -/
def checkPublishRate (cfg : MessageConfig) (now : Nat)
    (lpt : List (Str × Nat)) (clientId : Str) : Bool × List (Str × Nat) :=
  let lastTime := getLastPublishTime lpt clientId
  if (now : Int) - lastTime < cfg.publishRateLimit then
    (false, lpt)
  else
    (true, setLastPublishTime lpt clientId now)

/-! ### Device Cache: pending-message spool for HTTP devices (`cache.ts`) -/

/-- One spooled entry: the forwarded message and its enqueue timestamp. -/
structure PendingMessage : Type where
  message : ForwardMessage
  timestamp : Nat

/-- `DeviceCache.addPendingMessage`: ensure the client has a queue, then
push the message with the current timestamp. -/
def addPendingMessage (now : Nat) (pm : List (Str × List PendingMessage))
    (clientId : Str) (message : ForwardMessage) :
    List (Str × List PendingMessage) :=
  let pm1 := if (alGet pm clientId).isSome then pm else alSet pm clientId []
  let messages := (alGet pm1 clientId).getD []
  alSet pm1 clientId (messages ++ [{ message := message, timestamp := now }])

/-- `DeviceCache.getPendingMessages`: read the client's queue (empty when
absent), delete the key, and return the entries younger than `expireTime`
in enqueue order, stripped to the message contents. -/
def getPendingMessages (cfg : MessageConfig) (now : Nat)
    (pm : List (Str × List PendingMessage)) (clientId : Str) :
    List ForwardMessage × List (Str × List PendingMessage) :=
  let messages := (alGet pm clientId).getD []
  let pm1 := alDel pm clientId
  ((messages.filter (fun m => (now : Int) - m.timestamp < cfg.expireTime)).map
      (fun m => m.message),
    pm1)

/-! ### Device Cache: connection mode and group projection (`cache.ts`) -/

/-- Device connection mode. -/
inductive DeviceMode : Type where
  | mqtt : DeviceMode
  | http : DeviceMode
deriving DecidableEq

/-- `DeviceCache.getDeviceMode`: the mode map defaults to `mqtt` for
unknown clients. -/
def getDeviceMode (dmm : List (Str × DeviceMode)) (clientId : Str) :
    DeviceMode :=
  (alGet dmm clientId).getD .mqtt

/-- `DeviceCache.isHttpMode`. -/
def isHttpMode (dmm : List (Str × DeviceMode)) (clientId : Str) : Bool :=
  getDeviceMode dmm clientId = .http

/-- `DeviceCache.getDeviceGroups`: the cached group names of a client,
empty when absent. -/
def getDeviceGroups (dgm : List (Str × List Str)) (clientId : Str) :
    List Str :=
  (alGet dgm clientId).getD []

/-- `DeviceCache.isDeviceInGroup`: membership in the cached forward
index. -/
def isDeviceInGroup (dgm : List (Str × List Str)) (clientId : Str)
    (groupName : Str) : Bool :=
  (getDeviceGroups dgm clientId).contains groupName

/-! ### Topic grammar (`broker.ts` anchored regexes) -/

/-- Strip an expected literal prefix from a string, returning the rest on
success (`topic.startsWith(p)` and the anchored-regex literal parts). -/
def dropPrefixQ : Str → Str → Option Str
  | [], s => some s
  | _ :: _, [] => none
  | p :: ps, c :: cs => if p = c then dropPrefixQ ps cs else none

/-- Shared shape of `DEVICE_TOPIC_REGEX` and `GROUP_TOPIC_REGEX`: the
literal prefix, then a nonempty segment without `/` (`[^/]+`), then `/`,
then a final character `s` or `r`, anchored at both ends. -/
def matchChannelTopic (pre : Str) (t : Str) : Option (Str × Char) :=
  match dropPrefixQ pre t with
  | none => none
  | some rest =>
    let seg := rest.takeWhile (fun c => c ≠ '/')
    let tail := rest.dropWhile (fun c => c ≠ '/')
    if seg = [] then none
    else
      match tail with
      | ['/', d] => if d = 's' ∨ d = 'r' then some (seg, d) else none
      | _ => none

/-- `DEVICE_TOPIC_REGEX`: `^\/device\/([^/]+)\/(s|r)$`. -/
def matchDeviceTopic (t : Str) : Option (Str × Char) :=
  matchChannelTopic "/device/".data t

/-- `GROUP_TOPIC_REGEX`: `^\/group\/([^/]+)\/(s|r)$`. -/
def matchGroupTopic (t : Str) : Option (Str × Char) :=
  matchChannelTopic "/group/".data t

/-- The two MQTT authorization actions. -/
inductive PubSubAction : Type where
  | publish : PubSubAction
  | subscribe : PubSubAction
deriving DecidableEq

/-- `checkTopicPermission` from `broker.ts`: device topics allow publish
on the own `/s` topic and subscribe on the own `/r` topic only; group
topics require membership — checked in the cached forward index first,
falling back to the identity store (`isDeviceInGroup(device.id, name)`,
passed here as the oracle `dbInGroup`) on a cache miss; any other topic is
denied. -/
def checkTopicPermission (clientId : Str) (topic : Str)
    (action : PubSubAction) (device : Device)
    (dgm : List (Str × List Str)) (dbInGroup : Nat → Str → Bool) : Bool :=
  match matchDeviceTopic topic with
  | some (topicClientId, direction) =>
    if action = .publish ∧ direction = 's' then
      decide (topicClientId = clientId)
    else if action = .subscribe ∧ direction = 'r' then
      decide (topicClientId = clientId)
    else
      false
  | none =>
    match matchGroupTopic topic with
    | some (groupName, _) =>
      let isInGroup := isDeviceInGroup dgm clientId groupName
      if ¬ isInGroup then
        if ¬ dbInGroup device.id groupName then false else true
      else true
    | none => false

/-! ### Bridge addressing and client identification (`bridge.ts`) -/

/-- Split a string at its first `:` (the `indexOf`/`substring` pair in
`parseRemoteAddress`): the part before and the part after, when a colon
exists. -/
def splitFirstColon : Str → Option (Str × Str)
  | [] => none
  | c :: rest =>
    if c = ':' then some ([], rest)
    else (splitFirstColon rest).map (fun p => (c :: p.1, p.2))

/-- `parseRemoteAddress`: `brokerId:clientId` split on the first colon;
`null` (here `none`) when there is no colon or either half is empty. -/
def parseRemoteAddress (address : Str) : Option (Str × Str) :=
  match splitFirstColon address with
  | none => none
  | some (brokerId, clientId) =>
    if brokerId = [] ∨ clientId = [] then none else some (brokerId, clientId)

/-- `isBridgeClient`: the client id starts with the reserved
`__bridge_` marker. -/
def isBridgeClient (clientId : Str) : Bool :=
  (dropPrefixQ "__bridge_".data clientId).isSome

/-! ### Payload length as JavaScript computes it -/

/-- UTF-16 length of a decoded payload string
(`packet.payload.toString().length`): code points below `0x10000` count
one UTF-16 unit, the rest count two. The payload is modelled as the list
of Unicode code points of the decoded string. -/
def utf16Len (cps : List Nat) : Nat :=
  (cps.map (fun c => if c < 65536 then 1 else 2)).sum

/-- UTF-8 byte length of the same payload: the number of bytes the client
actually sent on the wire. -/
def utf8Len (cps : List Nat) : Nat :=
  (cps.map (fun c =>
    if c < 128 then 1 else if c < 2048 then 2 else if c < 65536 then 3
    else 4)).sum

/-! ### Publish / subscribe authorization (`broker.ts`) -/

/-- Outcome of an authorization callback: whether the operation was
allowed (callback without error), whether `client.close()` was invoked,
and the updated `lastPublishTime` map. -/
structure PublishAuthDecision : Type where
  allowed : Bool
  closed : Bool
  lpt : List (Str × Nat)
deriving DecidableEq

/-- `aedes.authorizePublish`: bridge clients may publish only under
`/bridge/`; device clients run, in order, the size check
(`payload.length > config.message.maxLength` on the decoded string),
the rate check (`checkPublishRate`), the cached device lookup and the
topic ACL. Size, rate and ACL violations reject and close the session;
a missing cache entry rejects without closing. -/
def authorizePublish (cfg : MessageConfig) (now : Nat) (clientId : Str)
    (topic : Str) (payload : List Nat)
    (deviceByClientId : List (Str × Device)) (lpt : List (Str × Nat))
    (dgm : List (Str × List Str)) (dbInGroup : Nat → Str → Bool) :
    PublishAuthDecision :=
  if isBridgeClient clientId then
    if (dropPrefixQ "/bridge/".data topic).isSome then
      { allowed := true, closed := false, lpt := lpt }
    else
      { allowed := false, closed := false, lpt := lpt }
  else if utf16Len payload > cfg.maxLength then
    { allowed := false, closed := true, lpt := lpt }
  else
    match checkPublishRate cfg now lpt clientId with
    | (false, lpt1) => { allowed := false, closed := true, lpt := lpt1 }
    | (true, lpt1) =>
      match alGet deviceByClientId clientId with
      | none => { allowed := false, closed := false, lpt := lpt1 }
      | some device =>
        if checkTopicPermission clientId topic .publish device dgm dbInGroup
        then { allowed := true, closed := false, lpt := lpt1 }
        else { allowed := false, closed := true, lpt := lpt1 }

/-- `aedes.authorizeSubscribe`: bridge clients may subscribe only under
`/bridge/`; device clients need a cached device record and the topic ACL;
an ACL denial closes the session. Returns (allowed, closed). -/
def authorizeSubscribe (clientId : Str) (topic : Str)
    (deviceByClientId : List (Str × Device))
    (dgm : List (Str × List Str)) (dbInGroup : Nat → Str → Bool) :
    Bool × Bool :=
  if isBridgeClient clientId then
    if (dropPrefixQ "/bridge/".data topic).isSome then (true, false)
    else (false, false)
  else
    match alGet deviceByClientId clientId with
    | none => (false, false)
    | some device =>
      if checkTopicPermission clientId topic .subscribe device dgm dbInGroup
      then (true, false)
      else (false, true)

/-! ### Message dispatch effects -/

/-- Observable side effects of the dispatch paths: a share-data push on
`/bridge/share/data/{brokerId}/{clientId}`, an outbound bridge publish on
`/bridge/device/{target}` or `/bridge/group/{group}` of a connected peer,
a `DeviceCache.addPendingMessage` spool append, or a local
`aedes.publish`. -/
inductive Effect : Type where
  | sharePush (brokerId clientId uuid : Str) (data : Json) : Effect
  | bridgeDeviceSend (brokerId fromClientId targetClientId : Str)
      (data : Json) : Effect
  | bridgeGroupSend (brokerId fromClientId targetGroup : Str)
      (data : Json) : Effect
  | pendingAppend (clientId : Str) (fm : ForwardMessage) : Effect
  | publishTopic (topic : Str) (fm : ForwardMessage) : Effect

/-- The bridge-side environment a dispatch consults: whether federation is
enabled, the remote table (`brokerId ↦ connected?`), and the identity
store lookups used by the share-data push. -/
structure BridgeEnv : Type where
  enabled : Bool
  remotes : List (Str × Bool)
  dbDeviceByClientId : Str → Option Device
  dbSharedBrokerIdsForDevice : Nat → List Str

/-- `BridgeManager.isRemoteConnected`. -/
def isRemoteConnected (env : BridgeEnv) (brokerId : Str) : Bool :=
  (alGet env.remotes brokerId).getD false

/-- `BridgeManager.sendToRemoteDevice`: publish to the peer when its
connection is up, else report failure. -/
def sendToRemoteDevice (env : BridgeEnv)
    (remoteBrokerId fromClientId targetClientId : Str) (data : Json) :
    Bool × List Effect :=
  if isRemoteConnected env remoteBrokerId then
    (true, [.bridgeDeviceSend remoteBrokerId fromClientId targetClientId data])
  else
    (false, [])

/-- `BridgeManager.sendToRemoteGroup`. -/
def sendToRemoteGroup (env : BridgeEnv)
    (remoteBrokerId fromClientId targetGroup : Str) (data : Json) :
    Bool × List Effect :=
  if isRemoteConnected env remoteBrokerId then
    (true, [.bridgeGroupSend remoteBrokerId fromClientId targetGroup data])
  else
    (false, [])

/-- `BridgeManager.broadcastToRemoteGroup`: `sendToRemoteGroup` to every
known remote. -/
def broadcastToRemoteGroup (env : BridgeEnv)
    (fromClientId targetGroup : Str) (data : Json) : List Effect :=
  (env.remotes.map Prod.fst).foldr
    (fun brokerId acc =>
      (sendToRemoteGroup env brokerId fromClientId targetGroup data).2 ++ acc)
    []

/-- `BridgeManager.pushShareDataIfNeeded`: when the sending device exists
and is shared with peers, emit one share-data publish per sharing peer. -/
def pushShareDataIfNeeded (env : BridgeEnv) (clientId : Str) (data : Json) :
    List Effect :=
  match env.dbDeviceByClientId clientId with
  | none => []
  | some device =>
    (env.dbSharedBrokerIdsForDevice device.id).map
      (fun brokerId => .sharePush brokerId clientId device.uuid data)

/-! ### Device and group message forwarding (`broker.ts`) -/

/-- The parsed JSON body of a device publish (`DeviceMessage` /
`GroupMessage` in `broker.ts`): the `toDevice` / `toGroup` / `data`
fields that the handlers read. -/
structure DeviceMessage : Type where
  toDevice : Option Str := none
  toGroup : Option Str := none
  ts : Bool := false
  data : Json := Json.null

/-- JavaScript falsiness of an optional string field: absent or empty. -/
def optStrFalsy : Option Str → Bool
  | none => true
  | some s => s = []

/-- `handleDeviceMessage`: drop when `toDevice` or `data` is falsy; push
share data when federation is enabled; forward to a remote broker when
`toDevice` parses as `brokerId:clientId`; otherwise spool for HTTP-mode
targets or publish on `/device/{target}/r`. -/
def handleDeviceMessage (env : BridgeEnv) (senderId : Str)
    (message : DeviceMessage) (dmm : List (Str × DeviceMode)) :
    List Effect :=
  if optStrFalsy message.toDevice ∨ ¬ jsTruthy message.data then []
  else
    let toDevice := message.toDevice.getD []
    let shareEffects :=
      if env.enabled then pushShareDataIfNeeded env senderId message.data
      else []
    match parseRemoteAddress toDevice with
    | some remoteAddr =>
      shareEffects ++
        (sendToRemoteDevice env remoteAddr.1 senderId remoteAddr.2
          message.data).2
    | none =>
      let fm : ForwardMessage :=
        { fromDevice := senderId, data := message.data }
      if isHttpMode dmm toDevice then
        shareEffects ++ [.pendingAppend toDevice fm]
      else
        shareEffects ++
          [.publishTopic ("/device/".data ++ toDevice ++ "/r".data) fm]

/-- `handleGroupMessage`: drop when `toGroup` or `data` is falsy; forward
to a remote broker when `toGroup` parses as `brokerId:groupName`; else
require cached membership of the sender, spool for the group's HTTP-mode
members other than the sender (`groupMembers` models
`deviceCache.getGroupMembers`), publish on `/group/{toGroup}/r`, and
broadcast to remotes when federation is enabled. -/
def handleGroupMessage (env : BridgeEnv) (senderId : Str)
    (message : DeviceMessage) (dmm : List (Str × DeviceMode))
    (dgm : List (Str × List Str)) (groupMembers : Str → List Str) :
    List Effect :=
  if optStrFalsy message.toGroup ∨ ¬ jsTruthy message.data then []
  else
    let toGroup := message.toGroup.getD []
    match parseRemoteAddress toGroup with
    | some remoteAddr =>
      (sendToRemoteGroup env remoteAddr.1 senderId remoteAddr.2
        message.data).2
    | none =>
      if ¬ isDeviceInGroup dgm senderId toGroup then []
      else
        let fm : ForwardMessage :=
          { fromGroup := some toGroup, fromDevice := senderId,
            data := message.data }
        ((groupMembers toGroup).filter
            (fun m => m ≠ senderId ∧ isHttpMode dmm m)).map
          (fun m => Effect.pendingAppend m fm) ++
        [.publishTopic ("/group/".data ++ toGroup ++ "/r".data) fm] ++
        (if env.enabled then
          broadcastToRemoteGroup env senderId toGroup message.data
        else [])

/-! ### Bridge device-share ACL (`database.ts`, `bridge.ts`) -/

/-- A stored share permission (`bridge_shared_devices.permissions`). -/
inductive SharePerm : Type where
  | read : SharePerm
  | readwrite : SharePerm
deriving DecidableEq

/-- A `bridge_shared_devices` row. -/
structure BridgeSharedDeviceRow : Type where
  broker_id : Str
  device_id : Nat
  permissions : SharePerm
deriving DecidableEq

/-- The four-valued outcome of `checkBridgeDeviceAccess`. -/
inductive BridgeAccess : Type where
  | all : BridgeAccess
  | readwrite : BridgeAccess
  | read : BridgeAccess
  | none : BridgeAccess
deriving DecidableEq

/-- `checkBridgeDeviceAccess(targetClientId, fromBrokerId)`: `all` when
the peer has no share rows at all; otherwise the permission of the row
joined on `devices.client_id = targetClientId`, or `none` without such a
row. -/
def checkBridgeDeviceAccess (rows : List BridgeSharedDeviceRow)
    (devices : List Device) (targetClientId fromBrokerId : Str) :
    BridgeAccess :=
  let count :=
    (rows.filter (fun r => decide (r.broker_id = fromBrokerId))).length
  if count = 0 then .all
  else
    match rows.find? (fun r =>
        decide (r.broker_id = fromBrokerId) &&
        ((devices.find? (fun d => decide (d.id = r.device_id))).any
          (fun d => decide (d.client_id = some targetClientId)))) with
    | some r =>
      match r.permissions with
      | .read => .read
      | .readwrite => .readwrite
    | Option.none => .none

/-- `BridgeManager.deliverToLocalDevice`: inbound bridge device message;
dropped when the share ACL yields `none` or `read`, otherwise spooled for
an HTTP-mode target or published on `/device/{target}/r` with the
`brokerId:clientId`-prefixed sender. -/
def deliverToLocalDevice (rows : List BridgeSharedDeviceRow)
    (devices : List Device) (dmm : List (Str × DeviceMode))
    (fromBroker fromDevice targetClientId : Str) (data : Json) :
    List Effect :=
  let access := checkBridgeDeviceAccess rows devices targetClientId fromBroker
  if access = .none then []
  else if access = .read then []
  else
    let fm : ForwardMessage :=
      { fromDevice := fromBroker ++ ':' :: fromDevice, data := data }
    if isHttpMode dmm targetClientId then
      [.pendingAppend targetClientId fm]
    else
      [.publishTopic ("/device/".data ++ targetClientId ++ "/r".data) fm]

/-! ### Delayed-task scheduler (`scheduler.ts`) -/

/-- Task execution modes. -/
inductive ScheduleMode : Type where
  | scheduled : ScheduleMode
  | countdown : ScheduleMode
  | recurring : ScheduleMode
deriving DecidableEq

/-- A `ScheduledTask` record. -/
structure ScheduledTask : Type where
  id : Str
  deviceId : Str
  command : Json
  mode : ScheduleMode
  executeAt : Nat
  interval : Option Nat := none
  createdAt : Nat := 0
  lastExecutedAt : Option Nat := none
  enabled : Bool := true

/-- JavaScript truthiness of `task.interval`: present and nonzero. -/
def intervalTruthy : Option Nat → Bool
  | none => false
  | some i => i ≠ 0

/-- `Scheduler.executeTask`: one dispatcher crossing — spool the command
for an HTTP-mode target, else publish it on `/device/{target}/r` as
`__scheduler__`. -/
def executeTask (dmm : List (Str × DeviceMode)) (task : ScheduledTask) :
    Effect :=
  let fm : ForwardMessage :=
    { fromDevice := "__scheduler__".data, data := task.command }
  if isHttpMode dmm task.deviceId then
    .pendingAppend task.deviceId fm
  else
    .publishTopic ("/device/".data ++ task.deviceId ++ "/r".data) fm

/-- `Scheduler.checkAndExecuteTasks` at one tick: fire every enabled task
whose `executeAt` has passed; recurring tasks (with a truthy interval)
advance `executeAt` to `now + interval` and record `lastExecutedAt = now`,
all others are removed after the firing. -/
def checkAndExecuteTasks (dmm : List (Str × DeviceMode)) (now : Nat) :
    List (Str × ScheduledTask) →
    List (Str × ScheduledTask) × List Effect
  | [] => ([], [])
  | (taskId, task) :: rest =>
    let r := checkAndExecuteTasks dmm now rest
    if ¬ task.enabled then ((taskId, task) :: r.1, r.2)
    else if now ≥ task.executeAt then
      let e := executeTask dmm task
      if task.mode = .recurring ∧ intervalTruthy task.interval then
        ((taskId,
          { task with executeAt := now + task.interval.getD 0,
                      lastExecutedAt := some now }) :: r.1,
          e :: r.2)
      else (r.1, e :: r.2)
    else ((taskId, task) :: r.1, r.2)

/-- The scheduler's periodic timer: run `checkAndExecuteTasks` at each of
the given tick times, collecting the dispatches tagged with their tick
time. -/
def runTicks (dmm : List (Str × DeviceMode)) :
    List Nat → List (Str × ScheduledTask) →
    List (Str × ScheduledTask) × List (Nat × Effect)
  | [], tasks => (tasks, [])
  | t :: ts, tasks =>
    let r1 := checkAndExecuteTasks dmm t tasks
    let r2 := runTicks dmm ts r1.1
    (r2.1, r1.2.map (fun e => (t, e)) ++ r2.2)

/-! ### HTTP publish route `POST /device/s` (`routes.ts`) -/

/-- The request body of `POST /device/s`. The `data` field is modelled in
its string-typed form, which the route serializes verbatim
(`typeof data === 'string' ? data : JSON.stringify(data)`). -/
structure HttpPublishBody : Type where
  authKey : Option Str := none
  toDevice : Option Str := none
  toGroup : Option Str := none
  data : Option Str := none

/-- The cache state the route reads and writes. -/
structure RouteState : Type where
  deviceByAuthKey : List (Str × Device)
  deviceByClientId : List (Str × Device)
  lpt : List (Str × Nat)
  dmm : List (Str × DeviceMode)
  dgm : List (Str × List Str)
  pendingMessages : List (Str × List PendingMessage)
  httpLastActive : List (Str × Nat)

/-- `POST /device/s`: parameter validation, device resolution (cache with
identity-store fallback), HTTP-activity update, the rate check, the size
check, then the device and group dispatch branches. Returns the response
code of the envelope and the updated state. -/
def postDeviceS (cfg : MessageConfig) (now : Nat) (body : HttpPublishBody)
    (st : RouteState) (dbGetDeviceByAuthKey : Str → Option Device)
    (groupMembers : Str → List Str) : Nat × RouteState :=
  if optStrFalsy body.authKey then (1001, st)
  else if optStrFalsy body.toDevice ∧ optStrFalsy body.toGroup then
    (1001, st)
  else if optStrFalsy body.data then (1001, st)
  else
    let authKey := body.authKey.getD []
    let deviceInfo? :=
      match alGet st.deviceByAuthKey authKey with
      | some d => some d
      | none => dbGetDeviceByAuthKey authKey
    match deviceInfo? with
    | none => (1003, st)
    | some deviceInfo =>
      if optStrFalsy deviceInfo.client_id then (1001, st)
      else
        let clientId := deviceInfo.client_id.getD []
        let st1 :=
          if isHttpMode st.dmm clientId then
            { st with httpLastActive := alSet st.httpLastActive clientId now }
          else st
        let rate := checkPublishRate cfg now st1.lpt clientId
        let st2 := { st1 with lpt := rate.2 }
        if rate.1 = false then (1005, st2)
        else
          let messageStr := body.data.getD []
          if messageStr.length > cfg.maxLength then (1004, st2)
          else
            let st3 :=
              match body.toDevice with
              | some toDevice =>
                if toDevice ≠ [] then
                  match alGet st2.deviceByClientId toDevice with
                  | some _ =>
                    let fm : ForwardMessage :=
                      { fromDevice := clientId, data := Json.str messageStr }
                    if isHttpMode st2.dmm toDevice then
                      { st2 with pendingMessages :=
                          addPendingMessage now st2.pendingMessages toDevice fm }
                    else st2
                  | none => st2
                else st2
              | none => st2
            match body.toGroup with
            | some toGroup =>
              if toGroup ≠ [] then
                if ¬ isDeviceInGroup st3.dgm clientId toGroup then
                  (1006, st3)
                else
                  let fm : ForwardMessage :=
                    { fromGroup := some toGroup, fromDevice := clientId,
                      data := Json.str messageStr }
                  let newPending :=
                    ((groupMembers toGroup).filter
                        (fun m => m ≠ clientId ∧ isHttpMode st3.dmm m)).foldl
                      (fun pm m => addPendingMessage now pm m fm)
                      st3.pendingMessages
                  let st4 := { st3 with pendingMessages := newPending }
                  (1000, st4)
              else (1000, st3)
            | none => (1000, st3)

/-! ### Device Cache group reverse index

The repository's current `cache.ts` maintains `groupMembers` (the reverse
index backing `IDeviceCache.getGroupMembers`, declared in `types.ts` and
used by `broker.ts` and `routes.ts`) in lockstep with `deviceGroups`.
That implementation file is not part of this source snapshot — the
snapshot's `cache.ts` is a stale copy without `getGroupMembers` — so the
reverse-index maintenance is modelled from the specification. -/

/-- The two group indexes of the Device Cache: `deviceGroups`
(clientId → group names, the forward index) and `groupMembers`
(groupName → member client ids, the reverse index). -/
structure GroupIndex : Type where
  deviceGroupsMap : List (Str × List Str)
  groupMembersMap : List (Str × List Str)

/-- Lookup in either index, defaulting to the empty list. -/
def lookupD (m : List (Str × List Str)) (k : Str) : List Str :=
  (alGet m k).getD []

/-- Modelled from the spec: the removal half of `setDeviceGroups` —
remove `cid` from the member set of group `g`; if the set becomes empty,
delete the key from `groupMembers`. -/
def gmRemoveMember : List (Str × List Str) → Str → Str →
    List (Str × List Str)
  | [], _, _ => []
  | (k, v) :: rest, g, cid =>
    if k = g then
      (let v2 := v.erase cid
       if v2 = [] then gmRemoveMember rest g cid
       else (k, v2) :: gmRemoveMember rest g cid)
    else (k, v) :: gmRemoveMember rest g cid

/-- Modelled from the spec: the insertion half of `setDeviceGroups` —
insert `cid` into the member set of group `g`, creating the key when
absent and not duplicating an existing membership. -/
def gmAddMember : List (Str × List Str) → Str → Str →
    List (Str × List Str)
  | [], g, cid => [(g, [cid])]
  | (k, v) :: rest, g, cid =>
    if k = g then (k, if cid ∈ v then v else v ++ [cid]) :: rest
    else (k, v) :: gmAddMember rest g cid

/-- Modelled from the spec: `DeviceCache.setDeviceGroups(clientId,
groupNames)` (current `cache.ts`, absent from this snapshot) — store the
new forward list and rebuild the reverse index: remove `clientId` from
every group of the old list that is not in the new list, then insert it
into all listed groups. -/
def setDeviceGroups (st : GroupIndex) (clientId : Str)
    (groups : List Str) : GroupIndex :=
  let old := lookupD st.deviceGroupsMap clientId
  let gm1 := (old.filter (fun g => ¬ groups.contains g)).foldl
    (fun gm g => gmRemoveMember gm g clientId) st.groupMembersMap
  let gm2 := groups.foldl (fun gm g => gmAddMember gm g clientId) gm1
  { deviceGroupsMap := alSet st.deviceGroupsMap clientId groups,
    groupMembersMap := gm2 }

/-- Modelled from the spec: `DeviceCache.getGroupMembers(groupName)`
(declared in `types.ts`; implementation absent from this snapshot) — the
reverse-index entry of a group, empty when absent. -/
def getGroupMembers (st : GroupIndex) (groupName : Str) : List Str :=
  lookupD st.groupMembersMap groupName

/-- Apply a sequence of `setDeviceGroups` calls in order. -/
def applyGroupCalls (calls : List (Str × List Str)) (st : GroupIndex) :
    GroupIndex :=
  calls.foldl (fun s c => setDeviceGroups s c.1 c.2) st

/-- The empty group index. -/
def emptyGroupIndex : GroupIndex :=
  { deviceGroupsMap := [], groupMembersMap := [] }

/-- Well-formedness of the reverse index: keys are unique and every
member set is nonempty and duplicate-free. -/
def gmWF (gm : List (Str × List Str)) : Prop :=
  (gm.map Prod.fst).Nodup ∧ ∀ e ∈ gm, e.2 ≠ [] ∧ e.2.Nodup

/-! ### Concrete sample values used by witness theorems -/

/-- A sample forwarded message. -/
def fmSampleB : ForwardMessage := { fromDevice := ['b'], data := Json.num 1 }

/-- Another sample forwarded message. -/
def fmSampleC : ForwardMessage := { fromDevice := ['c'], data := Json.num 2 }

/-- A sample pending-message map: client `"a"` has one entry enqueued at
t=40000 and one at t=100000. -/
def pmSample : List (Str × List PendingMessage) :=
  [(['a'], [{ message := fmSampleB, timestamp := 40000 },
            { message := fmSampleC, timestamp := 100000 }])]

/-- A bridge environment with federation disabled and no remotes. -/
def envNoBridge : BridgeEnv :=
  { enabled := false, remotes := [],
    dbDeviceByClientId := fun _ => none,
    dbSharedBrokerIdsForDevice := fun _ => [] }

/-- A sample device record with client id `"t"`. -/
def devSampleT : Device :=
  { id := 7, uuid := ['u'], client_id := some ['t'],
    username := ['n'], password := ['w'] }

/-- A sample device record with client id `"c"`. -/
def devSampleC : Device :=
  { id := 1, uuid := ['u'], client_id := some ['c'],
    username := ['n'], password := ['w'] }

/-- A sample share table: peer `"p"` shares device 7 as `readwrite`. -/
def shareRowsSample : List BridgeSharedDeviceRow :=
  [{ broker_id := ['p'], device_id := 7, permissions := .readwrite }]

/-- A sample devices table holding only `devSampleT`. -/
def devicesSample : List Device := [devSampleT]

/-- A sample recurring task: fire at t=5, every 3 ms. -/
def taskSample : ScheduledTask :=
  { id := ['t'], deviceId := ['d'], command := Json.num 1,
    mode := .recurring, executeAt := 5, interval := some 3, createdAt := 0,
    lastExecutedAt := none, enabled := true }

/-- A sample route state: auth key `"k"` resolves to `devSampleC`
(client `"c"`), everything else empty. -/
def stSample : RouteState :=
  { deviceByAuthKey := [(['k'], devSampleC)], deviceByClientId := [],
    lpt := [], dmm := [], dgm := [], pendingMessages := [],
    httpLastActive := [] }

/-! ## Lemmas and theorems -/

theorem alGet_alSet_self {α β : Type} [DecidableEq α]
    (m : List (α × β)) (k : α) (v : β) : alGet (alSet m k v) k = some v := by
  induction m with
  | nil => simp [alSet, alGet]
  | cons e rest ih =>
    obtain ⟨k', v'⟩ := e
    by_cases h : k' = k <;> simp [alSet, alGet, h, ih]

theorem alGet_alSet_ne {α β : Type} [DecidableEq α]
    (m : List (α × β)) (k k' : α) (v : β) (h : k ≠ k') :
    alGet (alSet m k v) k' = alGet m k' := by
  induction m with
  | nil => simp [alSet, alGet, h]
  | cons e rest ih =>
    obtain ⟨k₀, v₀⟩ := e
    by_cases h₀ : k₀ = k
    · subst h₀
      simp [alSet, alGet, h]
    · simp [alSet, alGet, h₀, ih]

theorem alGet_eq_none_of_not_mem {α β : Type} [DecidableEq α]
    (m : List (α × β)) (k : α) (h : k ∉ m.map Prod.fst) :
    alGet m k = none := by
  induction m with
  | nil => simp [alGet]
  | cons e rest ih =>
    obtain ⟨k', v'⟩ := e
    simp only [List.map_cons, List.mem_cons, not_or] at h
    have hne : k' ≠ k := fun hEq => h.1 hEq.symm
    simp [alGet, hne, ih h.2]

theorem alGet_alSet {α β : Type} [DecidableEq α]
    (m : List (α × β)) (k k' : α) (v : β) :
    alGet (alSet m k v) k' = if k = k' then some v else alGet m k' := by
  by_cases h : k = k'
  · subst h
    simp [alGet_alSet_self]
  · simp [h, alGet_alSet_ne m k k' v h]

theorem alGet_alDel_self {α β : Type} [DecidableEq α]
    (m : List (α × β)) (k : α)
    (hnd : (m.map Prod.fst).Nodup) : alGet (alDel m k) k = none := by
  induction m with
  | nil => simp [alDel, alGet]
  | cons e rest ih =>
    obtain ⟨k', v'⟩ := e
    simp only [List.map_cons, List.nodup_cons] at hnd
    by_cases h : k' = k
    · subst h
      simp only [alDel, if_pos rfl]
      exact alGet_eq_none_of_not_mem rest k' hnd.1
    · simp only [alDel, if_neg h, alGet, if_neg h]
      exact ih hnd.2

/-- C4: `checkPublishRate(clientId)` returns true and updates
`lastPublishTime[clientId]` to the current time if and only if
`now − lastPublishTime[clientId] ≥ publishRateLimit`, where a client with
no recorded time is treated as `0`; on failure the map is left unchanged,
so publishes spaced more than `publishRateLimit` ms apart always pass. -/
theorem C4_checkPublishRate (cfg : MessageConfig) (now : Nat)
    (lpt : List (Str × Nat)) (cid : Str) :
    ((checkPublishRate cfg now lpt cid).1 = true ↔
      (cfg.publishRateLimit : Int) ≤ (now : Int) - getLastPublishTime lpt cid)
    ∧ ((checkPublishRate cfg now lpt cid).1 = true →
        (checkPublishRate cfg now lpt cid).2 =
          setLastPublishTime lpt cid now ∧
        getLastPublishTime (checkPublishRate cfg now lpt cid).2 cid = now)
    ∧ ((checkPublishRate cfg now lpt cid).1 = false →
        (checkPublishRate cfg now lpt cid).2 = lpt)
    ∧ (alGet lpt cid = none → getLastPublishTime lpt cid = 0)
    ∧ (∀ t2 : Nat, (checkPublishRate cfg now lpt cid).1 = true →
        (cfg.publishRateLimit : Int) < (t2 : Int) - now →
        (checkPublishRate cfg t2 (checkPublishRate cfg now lpt cid).2 cid).1 =
          true) := by
  by_cases h :
      (now : Int) - ((getLastPublishTime lpt cid : Nat) : Int) <
        ((cfg.publishRateLimit : Nat) : Int)
  · have e : checkPublishRate cfg now lpt cid = (false, lpt) := by
      simp only [checkPublishRate]
      rw [if_pos h]
    rw [e]
    refine ⟨?_, ?_, ?_, ?_, ?_⟩
    · constructor
      · intro hx
        exact absurd hx (by simp)
      · intro hle
        exact absurd hle (not_le.mpr h)
    · intro hx
      exact absurd hx (by simp)
    · intro _
      rfl
    · intro hn
      simp [getLastPublishTime, hn]
    · intro t2 hx _
      exact absurd hx (by simp)
  · have e : checkPublishRate cfg now lpt cid =
        (true, setLastPublishTime lpt cid now) := by
      simp only [checkPublishRate]
      rw [if_neg h]
    have h2 : getLastPublishTime (setLastPublishTime lpt cid now) cid = now := by
      simp [getLastPublishTime, setLastPublishTime, alGet_alSet_self]
    rw [e]
    refine ⟨?_, ?_, ?_, ?_, ?_⟩
    · constructor
      · intro _
        omega
      · intro _
        rfl
    · intro _
      exact ⟨rfl, h2⟩
    · intro hx
      exact absurd hx (by simp)
    · intro hn
      simp [getLastPublishTime, hn]
    · intro t2 _ hlt
      have hn2 : ¬ ((t2 : Int) -
          ((getLastPublishTime (setLastPublishTime lpt cid now) cid : Nat) : Int) <
            ((cfg.publishRateLimit : Nat) : Int)) := by
        rw [h2]
        omega
      simp only [checkPublishRate]
      rw [if_neg hn2]

/-- Witness for C4 at concrete inputs: rate 1000 ms, empty map, a publish
at t=5000 passes and a second at t=7000 (spacing 2000 > 1000) passes. -/
theorem C4_checkPublishRate_witness :
    (checkPublishRate defaultMessageConfig 5000 [] ['a']).1 = true ∧
    (checkPublishRate defaultMessageConfig 7000
      (checkPublishRate defaultMessageConfig 5000 [] ['a']).2 ['a']).1 =
      true := by
  have h := C4_checkPublishRate defaultMessageConfig 5000 [] ['a']
  have h1 : (checkPublishRate defaultMessageConfig 5000 [] ['a']).1 = true :=
    h.1.mpr (by norm_num [getLastPublishTime, alGet, defaultMessageConfig])
  exact ⟨h1, h.2.2.2.2 7000 h1 (by norm_num [defaultMessageConfig])⟩


/-- C5: `addPendingMessage` appends `(msg, now)` to the client's queue;
`getPendingMessages` removes the queue and returns, in enqueue order,
exactly the entries enqueued less than `expireTime` ms ago; a second
immediate call returns the empty list. -/
theorem C5_pending_spool (cfg : MessageConfig) (now now2 : Nat)
    (pm : List (Str × List PendingMessage)) (cid : Str)
    (msg : ForwardMessage) (hnd : (pm.map Prod.fst).Nodup) :
    (alGet (addPendingMessage now pm cid msg) cid =
      some ((alGet pm cid).getD [] ++ [{ message := msg, timestamp := now }]))
    ∧ ((getPendingMessages cfg now pm cid).1 =
        (((alGet pm cid).getD []).filter
          (fun m => (now : Int) - m.timestamp < cfg.expireTime)).map
            (fun m => m.message))
    ∧ (alGet (getPendingMessages cfg now pm cid).2 cid = none)
    ∧ ((getPendingMessages cfg now2 (getPendingMessages cfg now pm cid).2
        cid).1 = []) := by
  have hdel : alGet (alDel pm cid) cid = none := alGet_alDel_self pm cid hnd
  refine ⟨?_, rfl, ?_, ?_⟩
  · cases hg : alGet pm cid with
    | none => simp [addPendingMessage, hg, alGet_alSet_self]
    | some l => simp [addPendingMessage, hg, alGet_alSet_self]
  · simpa [getPendingMessages] using hdel
  · simp [getPendingMessages, hdel]

/-- Witness for C5 at concrete inputs: reading `pmSample` at t=165000 with
the default 120 s expiry returns only the younger message, and a second
immediate read returns nothing. -/
theorem C5_pending_spool_witness :
    ((pmSample.map Prod.fst).Nodup) ∧
    ((getPendingMessages defaultMessageConfig 165000 pmSample ['a']).1 =
      [fmSampleC]) ∧
    ((getPendingMessages defaultMessageConfig 165001
      (getPendingMessages defaultMessageConfig 165000 pmSample ['a']).2
      ['a']).1 = []) := by
  have hnd : ((pmSample.map Prod.fst).Nodup) := by
    simp [pmSample]
  have h := C5_pending_spool defaultMessageConfig 165000 165001 pmSample
    ['a'] fmSampleB hnd
  refine ⟨hnd, ?_, h.2.2.2⟩
  rw [h.2.1]
  norm_num [pmSample, alGet, defaultMessageConfig, List.filter]

theorem splitFirstColon_of_not_mem (a : Str) (h : ':' ∉ a) :
    splitFirstColon a = none := by
  induction a with
  | nil => rfl
  | cons c rest ih =>
    simp only [List.mem_cons, not_or] at h
    have hc : ¬ c = ':' := fun hEq => h.1 (hEq ▸ rfl)
    simp only [splitFirstColon, if_neg hc]
    simp [ih h.2]

theorem splitFirstColon_append (A B : Str) (hA : ':' ∉ A) :
    splitFirstColon (A ++ ':' :: B) = some (A, B) := by
  induction A with
  | nil => simp [splitFirstColon]
  | cons c rest ih =>
    simp only [List.mem_cons, not_or] at hA
    have hc : ¬ c = ':' := fun hEq => hA.1 (hEq ▸ rfl)
    simp only [List.cons_append, splitFirstColon, if_neg hc]
    simp [ih hA.2]

/-- C7 (amended): `parseRemoteAddress` splits on the first colon — for
non-empty `A` without a colon and non-empty `B`, `A ++ ":" ++ B` parses to
`(A, B)`; an address without a colon parses to `none` (local); and an
address with an empty half also parses to `none`, the same outcome as a
local address. -/
theorem C7_parseRemoteAddress :
    (∀ A B : Str, A ≠ [] → B ≠ [] → ':' ∉ A →
      parseRemoteAddress (A ++ ':' :: B) = some (A, B))
    ∧ (∀ X : Str, ':' ∉ X → parseRemoteAddress X = none)
    ∧ (∀ X : Str, parseRemoteAddress (':' :: X) = none)
    ∧ (∀ X : Str, ':' ∉ X → parseRemoteAddress (X ++ [':']) = none) := by
  refine ⟨?_, ?_, ?_, ?_⟩
  · intro A B hA hB hColon
    simp [parseRemoteAddress, splitFirstColon_append A B hColon, hA, hB]
  · intro X hColon
    simp [parseRemoteAddress, splitFirstColon_of_not_mem X hColon]
  · intro X
    simp [parseRemoteAddress, splitFirstColon]
  · intro X hColon
    have h : splitFirstColon (X ++ [':']) = some (X, []) := by
      simpa using splitFirstColon_append X [] hColon
    simp [parseRemoteAddress, h]

/-- Witness for C7 at concrete inputs: `"a:b"`, `"x"`, `":x"`, `"x:"`. -/
theorem C7_parseRemoteAddress_witness :
    parseRemoteAddress ['a', ':', 'b'] = some (['a'], ['b']) ∧
    parseRemoteAddress ['x'] = none ∧
    parseRemoteAddress [':', 'x'] = none ∧
    parseRemoteAddress ['x', ':'] = none := by
  have h := C7_parseRemoteAddress
  exact ⟨h.1 ['a'] ['b'] (by simp) (by simp) (by simp),
    h.2.1 ['x'] (by simp),
    h.2.2.1 ['x'],
    h.2.2.2 ['x'] (by simp)⟩

/-- C7 counterexample: the claim calls an address with an empty half
"invalid rather than a local or remote address", but the code returns the
same `none` as for a plain local address, and the dispatch path then
treats it as a local target: a publish whose `toDevice` is `":x"` is
delivered to the (HTTP-mode) device literally named `":x"` instead of
being rejected. -/
theorem C7_empty_half_treated_as_local :
    parseRemoteAddress [':', 'x'] = parseRemoteAddress ['x'] ∧
    handleDeviceMessage envNoBridge ['s']
      { toDevice := some [':', 'x'], data := Json.num 1 }
      [([':', 'x'], DeviceMode.http)] =
      [Effect.pendingAppend [':', 'x']
        { fromDevice := ['s'], data := Json.num 1 }] := by
  constructor
  · rfl
  · rfl

/-- C10: a device or group publish whose parsed `data` field is a falsy
JSON value (`0`, `""`, `false` or `null`) is dropped with no effect at
all — no device dispatch, no pending-queue append, no bridge forward and
no share-data push — even when `toDevice` or `toGroup` is present; the
handlers never request a session close, so the publisher stays open. -/
theorem C10_falsy_data_dropped (env : BridgeEnv) (senderId : Str)
    (message : DeviceMessage) (dmm : List (Str × DeviceMode))
    (dgm : List (Str × List Str)) (groupMembers : Str → List Str)
    (hfalsy : jsTruthy message.data = false) :
    handleDeviceMessage env senderId message dmm = [] ∧
    handleGroupMessage env senderId message dmm dgm groupMembers = [] := by
  constructor
  · simp [handleDeviceMessage, hfalsy]
  · simp [handleGroupMessage, hfalsy]

/-- Witness for C10: a publish with `toDevice` and `toGroup` present but
`data = 0` produces no effects on either handler. -/
theorem C10_falsy_data_dropped_witness :
    jsTruthy (Json.num 0) = false ∧
    handleDeviceMessage envNoBridge ['s']
      { toDevice := some ['t'], toGroup := some ['g'], data := Json.num 0 }
      [(['t'], DeviceMode.http)] = [] ∧
    handleGroupMessage envNoBridge ['s']
      { toDevice := some ['t'], toGroup := some ['g'], data := Json.num 0 }
      [(['t'], DeviceMode.http)] [(['s'], [['g']])] (fun _ => [['s'], ['t']]) =
      [] := by
  have h := C10_falsy_data_dropped envNoBridge ['s']
    { toDevice := some ['t'], toGroup := some ['g'], data := Json.num 0 }
    [(['t'], DeviceMode.http)] [(['s'], [['g']])] (fun _ => [['s'], ['t']])
    (by decide)
  exact ⟨by decide, h.1, h.2⟩

theorem find?_eq_some_of_unique {α : Type} (p : α → Bool) (l : List α)
    (a : α) (ha : a ∈ l) (hpa : p a = true)
    (huniq : ∀ b ∈ l, p b = true → b = a) : l.find? p = some a := by
  induction l with
  | nil => cases ha
  | cons h tl ih =>
    cases hp : p h with
    | true =>
      have heq : h = a := huniq h (List.mem_cons_self h tl) hp
      simp [List.find?, hp, heq, hpa]
    | false =>
      have hne : a ≠ h := fun hEq => by
        rw [hEq] at hpa
        rw [hpa] at hp
        cases hp
      have ha2 : a ∈ tl := by
        cases ha with
        | head => exact absurd rfl hne
        | tail _ h2 => exact h2
      simp only [List.find?, hp]
      exact ih ha2 (fun b hb hpb => huniq b (List.mem_cons_of_mem h hb) hpb)

theorem device_find_eq_some (devices : List Device) (d : Device)
    (hmem : d ∈ devices) (hnd : (devices.map Device.id).Nodup) :
    devices.find? (fun x => decide (x.id = d.id)) = some d := by
  apply find?_eq_some_of_unique _ _ _ hmem (by simp)
  intro b hb hpb
  simp only [decide_eq_true_eq] at hpb
  exact List.inj_on_of_nodup_map hnd hb hmem hpb

/-- C6: with zero share rows for the peer, `checkBridgeDeviceAccess`
returns `all`; with rows present it returns the permission of the row
matched through `devices.client_id`, or `none` without a match; and
`deliverToLocalDevice` delivers exactly when the outcome is `all` or
`readwrite`, dropping the message on `read` and `none`. -/
theorem C6_share_acl_gate (rows : List BridgeSharedDeviceRow)
    (devices : List Device) (dmm : List (Str × DeviceMode))
    (fromBroker fromDevice target : Str) (data : Json)
    (hnd : (devices.map Device.id).Nodup) :
    ((rows.filter (fun r => decide (r.broker_id = fromBroker))).length = 0 →
      checkBridgeDeviceAccess rows devices target fromBroker = .all)
    ∧ (∀ r : BridgeSharedDeviceRow, ∀ d : Device, r ∈ rows → d ∈ devices →
        r.broker_id = fromBroker → d.id = r.device_id →
        d.client_id = some target →
        (∀ r2 ∈ rows, r2.broker_id = fromBroker →
          (∃ d2 ∈ devices, d2.id = r2.device_id ∧
            d2.client_id = some target) → r2 = r) →
        checkBridgeDeviceAccess rows devices target fromBroker =
          (match r.permissions with
            | .read => BridgeAccess.read
            | .readwrite => BridgeAccess.readwrite))
    ∧ ((rows.filter (fun r => decide (r.broker_id = fromBroker))).length ≠ 0 →
        (∀ r ∈ rows, r.broker_id = fromBroker →
          ∀ d ∈ devices, d.id = r.device_id → d.client_id ≠ some target) →
        checkBridgeDeviceAccess rows devices target fromBroker = .none)
    ∧ (checkBridgeDeviceAccess rows devices target fromBroker = .read ∨
        checkBridgeDeviceAccess rows devices target fromBroker = .none →
        deliverToLocalDevice rows devices dmm fromBroker fromDevice target
          data = [])
    ∧ (checkBridgeDeviceAccess rows devices target fromBroker = .all ∨
        checkBridgeDeviceAccess rows devices target fromBroker = .readwrite →
        deliverToLocalDevice rows devices dmm fromBroker fromDevice target
          data =
          (if isHttpMode dmm target then
            [Effect.pendingAppend target
              { fromDevice := fromBroker ++ ':' :: fromDevice, data := data }]
          else
            [Effect.publishTopic ("/device/".data ++ target ++ "/r".data)
              { fromDevice := fromBroker ++ ':' :: fromDevice,
                data := data }])) := by
  refine ⟨?_, ?_, ?_, ?_, ?_⟩
  · intro hz
    simp [checkBridgeDeviceAccess, hz]
  · intro r d hr hd hbroker hid hcid huniq
    have hcount :
        ¬ ((rows.filter
          (fun r2 => decide (r2.broker_id = fromBroker))).length = 0) := by
      intro h0
      have hmem : r ∈ rows.filter
          (fun r2 => decide (r2.broker_id = fromBroker)) := by
        simp [List.mem_filter, hr, hbroker]
      rw [List.length_eq_zero] at h0
      rw [h0] at hmem
      cases hmem
    have hfind : rows.find? (fun r2 =>
        decide (r2.broker_id = fromBroker) &&
        ((devices.find? (fun x => decide (x.id = r2.device_id))).any
          (fun x => decide (x.client_id = some target)))) = some r := by
      apply find?_eq_some_of_unique _ _ _ hr
      · have hfd : devices.find? (fun x => decide (x.id = r.device_id)) =
            some d := by
          rw [← hid]
          exact device_find_eq_some devices d hd hnd
        simp [hbroker, hfd, Option.any, hcid]
      · intro r2 hr2 hp2
        simp only [Bool.and_eq_true, decide_eq_true_eq] at hp2
        obtain ⟨hb2, hany⟩ := hp2
        cases hfx : devices.find? (fun x => decide (x.id = r2.device_id)) with
        | none =>
          rw [hfx] at hany
          simp [Option.any] at hany
        | some x =>
          rw [hfx] at hany
          simp only [Option.any, decide_eq_true_eq] at hany
          have hxid := List.find?_some hfx
          simp only [decide_eq_true_eq] at hxid
          exact huniq r2 hr2 hb2
            ⟨x, List.mem_of_find?_eq_some hfx, hxid, hany⟩
    simp only [checkBridgeDeviceAccess, if_neg hcount, hfind]
  · intro hcount hnone
    have hfind : rows.find? (fun r2 =>
        decide (r2.broker_id = fromBroker) &&
        ((devices.find? (fun x => decide (x.id = r2.device_id))).any
          (fun x => decide (x.client_id = some target)))) = none := by
      rw [List.find?_eq_none]
      intro r2 hr2
      simp only [Bool.and_eq_true, decide_eq_true_eq, not_and]
      intro hb2
      cases hfx : devices.find? (fun x => decide (x.id = r2.device_id)) with
      | none => simp [Option.any]
      | some x =>
        simp only [Option.any]
        have hxid := List.find?_some hfx
        simp only [decide_eq_true_eq] at hxid
        have := hnone r2 hr2 hb2 x (List.mem_of_find?_eq_some hfx) hxid
        simpa using this
    simp only [checkBridgeDeviceAccess, if_neg hcount, hfind]
  · intro hacc
    cases hacc with
    | inl h => simp [deliverToLocalDevice, h]
    | inr h => simp [deliverToLocalDevice, h]
  · intro hacc
    cases hacc with
    | inl h => simp [deliverToLocalDevice, h]
    | inr h => simp [deliverToLocalDevice, h]

/-- Witness for C6 at concrete inputs: peer `"p"` shares device 7
(client `"t"`) as `readwrite`, so an inbound bridge message for `"t"`
is delivered on `/device/t/r`. -/
theorem C6_share_acl_gate_witness :
    checkBridgeDeviceAccess shareRowsSample devicesSample ['t'] ['p'] =
      .readwrite ∧
    deliverToLocalDevice shareRowsSample devicesSample [] ['p'] ['f'] ['t']
      (Json.num 1) =
      [Effect.publishTopic ("/device/".data ++ ['t'] ++ "/r".data)
        { fromDevice := ['p'] ++ ':' :: ['f'], data := Json.num 1 }] := by
  have h := C6_share_acl_gate shareRowsSample devicesSample [] ['p'] ['f']
    ['t'] (Json.num 1) (by decide)
  have hacc : checkBridgeDeviceAccess shareRowsSample devicesSample ['t']
      ['p'] = .readwrite := by
    have hb := h.2.1
      { broker_id := ['p'], device_id := 7, permissions := .readwrite }
      devSampleT (by decide) (by decide) (by decide) (by decide) (by decide)
      (by decide)
    simpa using hb
  refine ⟨hacc, ?_⟩
  have hd := h.2.2.2.2 (Or.inr hacc)
  rw [hd]
  simp [isHttpMode, getDeviceMode, alGet]

set_option maxRecDepth 16384 in
/-- C2 (failing input): a publish whose payload is 513 copies of U+4E00 —
1539 UTF-8 bytes on the wire, beyond the documented 1024-byte limit — is
admitted by `authorizePublish` without closing the session, because the
code compares the decoded string's UTF-16 length (513) instead of the
byte length: the sender is rate-eligible and publishes to its own
`/device/c/s` topic, so no other check intervenes. -/
theorem C2_size_check_passes_oversized_bytes :
    utf8Len (List.replicate 513 19968) = 1539 ∧
    utf16Len (List.replicate 513 19968) = 513 ∧
    defaultMessageConfig.maxLength = 1024 ∧
    (authorizePublish defaultMessageConfig 5000 ['c'] "/device/c/s".data
      (List.replicate 513 19968) [(['c'], devSampleC)] [] []
      (fun _ _ => false)).allowed = true ∧
    (authorizePublish defaultMessageConfig 5000 ['c'] "/device/c/s".data
      (List.replicate 513 19968) [(['c'], devSampleC)] [] []
      (fun _ _ => false)).closed = false := by
  refine ⟨?_, ?_, rfl, ?_, ?_⟩
  · rw [utf8Len, List.map_replicate, List.sum_replicate]
    norm_num
  · rw [utf16Len, List.map_replicate, List.sum_replicate]
    norm_num
  · rfl
  · rfl

theorem dropPrefixQ_append (p s : Str) : dropPrefixQ p (p ++ s) = some s := by
  induction p with
  | nil => rfl
  | cons c cs ih => simp [dropPrefixQ, ih]

theorem takeWhile_append_no_slash (seg rest : Str) (h : '/' ∉ seg) :
    List.takeWhile (fun c => c ≠ '/') (seg ++ '/' :: rest) = seg := by
  induction seg with
  | nil => simp [List.takeWhile]
  | cons c cs ih =>
    simp only [List.mem_cons, not_or] at h
    have hcne : c ≠ '/' := fun hEq => h.1 hEq.symm
    have hc : decide (c ≠ '/') = true := decide_eq_true hcne
    simp only [List.cons_append, List.takeWhile, hc]
    exact congrArg (fun l => c :: l) (ih h.2)

theorem dropWhile_append_no_slash (seg rest : Str) (h : '/' ∉ seg) :
    List.dropWhile (fun c => c ≠ '/') (seg ++ '/' :: rest) = '/' :: rest := by
  induction seg with
  | nil => simp [List.dropWhile]
  | cons c cs ih =>
    simp only [List.mem_cons, not_or] at h
    have hcne : c ≠ '/' := fun hEq => h.1 hEq.symm
    have hc : decide (c ≠ '/') = true := decide_eq_true hcne
    simp only [List.cons_append, List.dropWhile, hc]
    exact ih h.2

theorem matchChannelTopic_build (pre seg : Str) (d : Char) (hseg : seg ≠ [])
    (hslash : '/' ∉ seg) (hd : d = 's' ∨ d = 'r') :
    matchChannelTopic pre (pre ++ seg ++ '/' :: [d]) = some (seg, d) := by
  have hdrop : dropPrefixQ pre (pre ++ seg ++ '/' :: [d]) =
      some (seg ++ '/' :: [d]) := by
    rw [List.append_assoc]
    exact dropPrefixQ_append pre (seg ++ '/' :: [d])
  simp only [matchChannelTopic, hdrop,
    takeWhile_append_no_slash seg [d] hslash,
    dropWhile_append_no_slash seg [d] hslash]
  simp [hseg, hd]

theorem matchDeviceTopic_on_group_none (tail : Str) :
    matchDeviceTopic ("/group/".data ++ tail) = none := by
  have h1 : "/device/".data = ['/', 'd', 'e', 'v', 'i', 'c', 'e', '/'] := rfl
  have h2 : "/group/".data = ['/', 'g', 'r', 'o', 'u', 'p', '/'] := rfl
  rw [matchDeviceTopic, h2]
  simp only [matchChannelTopic, h1, List.cons_append, dropPrefixQ]
  simp

/-- C1: the device-client topic ACL — publish on `/device/{cid}/s` and
subscribe on `/device/{cid}/r` are allowed exactly when `cid` is the
caller's client id, the two opposite direction/action pairs are denied;
both actions on `/group/{name}/s` and `/group/{name}/r` are allowed
exactly when the caller is a member of the group, taken from the cached
forward index with a fallback to the identity-store oracle on a cache
miss (a cache hit decides without consulting the store); every topic
outside the grammar is denied for both actions. -/
theorem C1_topic_acl (X : Str) (device : Device)
    (dgm : List (Str × List Str)) (dbInGroup : Nat → Str → Bool) :
    (∀ cid : Str, cid ≠ [] → '/' ∉ cid →
      checkTopicPermission X ("/device/".data ++ cid ++ '/' :: ['s'])
        .publish device dgm dbInGroup = decide (cid = X) ∧
      checkTopicPermission X ("/device/".data ++ cid ++ '/' :: ['r'])
        .subscribe device dgm dbInGroup = decide (cid = X) ∧
      checkTopicPermission X ("/device/".data ++ cid ++ '/' :: ['r'])
        .publish device dgm dbInGroup = false ∧
      checkTopicPermission X ("/device/".data ++ cid ++ '/' :: ['s'])
        .subscribe device dgm dbInGroup = false)
    ∧ (∀ g : Str, g ≠ [] → '/' ∉ g → ∀ d : Char, d = 's' ∨ d = 'r' →
        ∀ a : PubSubAction,
        checkTopicPermission X ("/group/".data ++ g ++ '/' :: [d]) a device
          dgm dbInGroup =
          (isDeviceInGroup dgm X g || dbInGroup device.id g))
    ∧ (∀ g : Str, g ≠ [] → '/' ∉ g → ∀ d : Char, d = 's' ∨ d = 'r' →
        ∀ a : PubSubAction, isDeviceInGroup dgm X g = true →
        ∀ db2 : Nat → Str → Bool,
        checkTopicPermission X ("/group/".data ++ g ++ '/' :: [d]) a device
          dgm db2 = true)
    ∧ (∀ topic : Str, matchDeviceTopic topic = none →
        matchGroupTopic topic = none → ∀ a : PubSubAction,
        checkTopicPermission X topic a device dgm dbInGroup = false) := by
  have hgroupSome : ∀ (g : Str), g ≠ [] → '/' ∉ g →
      ∀ d : Char, d = 's' ∨ d = 'r' →
      matchGroupTopic ("/group/".data ++ g ++ '/' :: [d]) = some (g, d) :=
    fun g hg hs d hd => matchChannelTopic_build "/group/".data g d hg hs hd
  refine ⟨?_, ?_, ?_, ?_⟩
  · intro cid hcid hslash
    have hs := matchChannelTopic_build "/device/".data cid 's' hcid hslash
      (Or.inl rfl)
    have hr := matchChannelTopic_build "/device/".data cid 'r' hcid hslash
      (Or.inr rfl)
    refine ⟨?_, ?_, ?_, ?_⟩
    · simp only [checkTopicPermission, matchDeviceTopic, hs]
      simp
    · simp only [checkTopicPermission, matchDeviceTopic, hr]
      simp
    · simp only [checkTopicPermission, matchDeviceTopic, hr]
      simp
    · simp only [checkTopicPermission, matchDeviceTopic, hs]
      simp
  · intro g hg hslash d hd a
    have hdev := matchDeviceTopic_on_group_none (g ++ '/' :: [d])
    rw [← List.append_assoc] at hdev
    have hgrp := hgroupSome g hg hslash d hd
    simp only [checkTopicPermission, hdev, matchGroupTopic] at *
    rw [hgrp]
    cases hc : isDeviceInGroup dgm X g <;>
      cases hdb : dbInGroup device.id g <;> simp [hc, hdb]
  · intro g hg hslash d hd a hcache db2
    have hdev := matchDeviceTopic_on_group_none (g ++ '/' :: [d])
    rw [← List.append_assoc] at hdev
    have hgrp := hgroupSome g hg hslash d hd
    simp only [checkTopicPermission, hdev, matchGroupTopic] at *
    rw [hgrp]
    simp [hcache]
  · intro topic hdev hgrp a
    simp only [checkTopicPermission, hdev, hgrp]

/-- Witness for C1 at concrete inputs: client `"c"` may publish to
`/device/c/s` but not `/device/x/s`, may publish to `/group/g/s` as a
cached member of `g`, and `/hello` is denied. -/
theorem C1_topic_acl_witness :
    checkTopicPermission ['c'] ("/device/".data ++ ['c'] ++ '/' :: ['s'])
      .publish devSampleC [] (fun _ _ => false) = true ∧
    checkTopicPermission ['c'] ("/device/".data ++ ['x'] ++ '/' :: ['s'])
      .publish devSampleC [] (fun _ _ => false) = false ∧
    checkTopicPermission ['c'] ("/group/".data ++ ['g'] ++ '/' :: ['s'])
      .publish devSampleC [(['c'], [['g']])] (fun _ _ => false) = true ∧
    checkTopicPermission ['c'] "/hello".data .publish devSampleC []
      (fun _ _ => false) = false := by
  have h := C1_topic_acl ['c'] devSampleC [(['c'], [['g']])] (fun _ _ => false)
  have h0 := C1_topic_acl ['c'] devSampleC [] (fun _ _ => false)
  refine ⟨?_, ?_, ?_, ?_⟩
  · have hx := (h0.1 ['c'] (by decide) (by decide)).1
    rw [hx]
    decide
  · have hx := (h0.1 ['x'] (by decide) (by decide)).1
    rw [hx]
    decide
  · exact h.2.2.1 ['g'] (by decide) (by decide) 's' (Or.inl rfl) .publish
      (by decide) (fun _ _ => false)
  · exact h0.2.2.2 "/hello".data (by decide) (by decide) .publish

theorem executeTask_ignores_schedule_fields (dmm : List (Str × DeviceMode))
    (task : ScheduledTask) (x : Nat) (y : Option Nat) :
    executeTask dmm { task with executeAt := x, lastExecutedAt := y } =
      executeTask dmm task := rfl

theorem checkAndExecuteTasks_fire_recurring (dmm : List (Str × DeviceMode))
    (tid : Str) (task : ScheduledTask) (now I : Nat) (hI : I ≠ 0)
    (hen : task.enabled = true) (hfire : now ≥ task.executeAt)
    (hmode : task.mode = .recurring) (hint : task.interval = some I) :
    checkAndExecuteTasks dmm now [(tid, task)] =
      ([(tid, { task with executeAt := now + I, lastExecutedAt := some now })],
        [executeTask dmm task]) := by
  have hint2 : intervalTruthy (some I) = true := by
    simpa [intervalTruthy] using hI
  simp [checkAndExecuteTasks, hen, hfire, hmode, hint, hint2]

theorem runTicks_recurring_aligned (dmm : List (Str × DeviceMode))
    (tid : Str) (I : Nat) (hI : I ≠ 0) (n : Nat) :
    ∀ (T : Nat) (task : ScheduledTask), task.executeAt = T →
      task.mode = .recurring → task.interval = some I →
      task.enabled = true →
      runTicks dmm ((List.range (n + 1)).map (fun k => T + k * I))
        [(tid, task)] =
        ([(tid, { task with executeAt := T + (n + 1) * I, lastExecutedAt := some (T + n * I) })],
          (List.range (n + 1)).map
            (fun k => (T + k * I, executeTask dmm task))) := by
  induction n with
  | zero =>
    intro T task hexec hmode hint hen
    have hr1 : List.range 1 = [0] := by decide
    have hstep := checkAndExecuteTasks_fire_recurring dmm tid task T I hI hen
      (by rw [hexec]) hmode hint
    rw [hr1]
    simp only [List.map_cons, List.map_nil, Nat.zero_mul, Nat.add_zero,
      runTicks, hstep]
    simp [Nat.one_mul]
  | succ n ih =>
    intro T task hexec hmode hint hen
    have hdecomp :
        (List.range (n + 2)).map (fun k => T + k * I) =
          T :: (List.range (n + 1)).map (fun k => T + I + k * I) := by
      rw [List.range_succ_eq_map]
      simp only [List.map_cons, List.map_map, Nat.zero_mul, Nat.add_zero]
      congr 1
      apply List.map_congr_left
      intro k _
      simp only [Function.comp_apply, Nat.succ_eq_add_one]
      ring
    have hdecomp2 :
        (List.range (n + 2)).map
          (fun k => (T + k * I, executeTask dmm task)) =
          (T, executeTask dmm task) ::
            (List.range (n + 1)).map
              (fun k => (T + I + k * I, executeTask dmm task)) := by
      have h2 := congrArg
        (List.map (fun x => (x, executeTask dmm task))) hdecomp
      simpa [List.map_map, Function.comp] using h2
    have hstep := checkAndExecuteTasks_fire_recurring dmm tid task T I hI hen
      (by rw [hexec]) hmode hint
    have htask1 := ih (T + I)
      { task with executeAt := T + I, lastExecutedAt := some T }
      rfl (by simp [hmode]) (by simp [hint]) (by simp [hen])
    have e1 : T + I + (n + 1) * I = T + (n + 1 + 1) * I := by ring
    have e2 : T + I + n * I = T + (n + 1) * I := by ring
    rw [e1, e2] at htask1
    rw [hdecomp, hdecomp2]
    simp only [runTicks, hstep, htask1,
      executeTask_ignores_schedule_fields]
    rfl

/-- C8: an enabled recurring task with interval `I` and `executeAt = T`,
driven by ticks at exactly `T, T+I, …, T+nI`, fires once per tick — each
firing crossing the dispatcher exactly once as one `executeTask` effect —
with `lastExecutedAt` set to the firing time and `executeAt` advanced by
one interval; a non-recurring task fires once and is removed; and once a
task is cancelled (removed from the map) further ticks dispatch
nothing. -/
theorem C8_scheduler_cadence (dmm : List (Str × DeviceMode)) (tid : Str)
    (task : ScheduledTask) (T I n : Nat) (hI : I ≠ 0)
    (hexec : task.executeAt = T) (hmode : task.mode = .recurring)
    (hint : task.interval = some I) (hen : task.enabled = true) :
    (runTicks dmm ((List.range (n + 1)).map (fun k => T + k * I))
        [(tid, task)] =
      ([(tid, { task with executeAt := T + (n + 1) * I, lastExecutedAt := some (T + n * I) })],
        (List.range (n + 1)).map
          (fun k => (T + k * I, executeTask dmm task))))
    ∧ (∀ (task2 : ScheduledTask) (t2 : Nat), task2.enabled = true →
        task2.mode ≠ .recurring → t2 ≥ task2.executeAt →
        checkAndExecuteTasks dmm t2 [(tid, task2)] =
          ([], [executeTask dmm task2]))
    ∧ (∀ ts : List Nat, runTicks dmm ts [] = ([], [])) := by
  refine ⟨?_, ?_, ?_⟩
  · exact runTicks_recurring_aligned dmm tid I hI n T task hexec hmode hint
      hen
  · intro task2 t2 hen2 hmode2 hf
    simp [checkAndExecuteTasks, hen2, hf, hmode2]
  · intro ts
    induction ts with
    | nil => rfl
    | cons t ts2 ih => simp [runTicks, checkAndExecuteTasks, ih]

/-- Witness for C8 at concrete inputs: `taskSample` (T=5, I=3) driven by
ticks at 5 and 8 fires at exactly those times, ending with
`executeAt = 11` and `lastExecutedAt = 8`. -/
theorem C8_scheduler_cadence_witness :
    runTicks [] ((List.range 2).map (fun k => 5 + k * 3))
      [(['t'], taskSample)] =
      ([(['t'], { taskSample with executeAt := 5 + 2 * 3, lastExecutedAt := some (5 + 1 * 3) })],
        (List.range 2).map (fun k => (5 + k * 3, executeTask [] taskSample))) :=
  (C8_scheduler_cadence [] ['t'] taskSample 5 3 1 (by decide) rfl rfl rfl
    rfl).1

/-- C9: in `POST /device/s` the rate check runs before the size check —
an authenticated, rate-eligible device posting oversized data gets code
1004 while `lastPublishTime` has already been stamped with the request
time, so a size-conforming publish by the same device within
`publishRateLimit` ms afterwards gets code 1005. -/
theorem C9_rate_check_before_size_check (cfg : MessageConfig)
    (now now2 : Nat) (st : RouteState) (ak cid tgt big small : Str)
    (dev : Device) (dbA : Str → Option Device) (gm : Str → List Str)
    (hak : ak ≠ []) (htgt : tgt ≠ [])
    (hdev : alGet st.deviceByAuthKey ak = some dev)
    (hcid : dev.client_id = some cid) (hcidne : cid ≠ [])
    (hrate : (cfg.publishRateLimit : Int) ≤
      (now : Int) - getLastPublishTime st.lpt cid)
    (hbig : big.length > cfg.maxLength) (hbigne : big ≠ [])
    (hsmall : small ≠ []) (hsmalllen : ¬ small.length > cfg.maxLength)
    (hrate2 : (now2 : Int) - (now : Int) < cfg.publishRateLimit) :
    (postDeviceS cfg now
      { authKey := some ak, toDevice := some tgt, data := some big } st dbA
      gm).1 = 1004
    ∧ (postDeviceS cfg now
        { authKey := some ak, toDevice := some tgt, data := some big } st
        dbA gm).2.lpt = setLastPublishTime st.lpt cid now
    ∧ (postDeviceS cfg now2
        { authKey := some ak, toDevice := some tgt, data := some small }
        (postDeviceS cfg now
          { authKey := some ak, toDevice := some tgt, data := some big } st
          dbA gm).2 dbA gm).1 = 1005 := by
  have hratef : checkPublishRate cfg now st.lpt cid =
      (true, setLastPublishTime st.lpt cid now) := by
    simp only [checkPublishRate]
    rw [if_neg (by omega)]
  have h1 : postDeviceS cfg now
      { authKey := some ak, toDevice := some tgt, data := some big } st dbA
      gm =
      (1004, { st with
        httpLastActive :=
          if isHttpMode st.dmm cid then alSet st.httpLastActive cid now
          else st.httpLastActive,
        lpt := setLastPublishTime st.lpt cid now }) := by
    by_cases hh : isHttpMode st.dmm cid = true
    · simp [postDeviceS, optStrFalsy, hak, htgt, hbigne, hcidne, hdev, hcid,
        hratef, hbig, hh]
    · simp [postDeviceS, optStrFalsy, hak, htgt, hbigne, hcidne, hdev, hcid,
        hratef, hbig, hh]
  refine ⟨by rw [h1], by rw [h1], ?_⟩
  rw [h1]
  have hlast : getLastPublishTime (setLastPublishTime st.lpt cid now) cid =
      now := by
    simp [getLastPublishTime, setLastPublishTime, alGet_alSet_self]
  have hratef2 : checkPublishRate cfg now2
      (setLastPublishTime st.lpt cid now) cid =
      (false, setLastPublishTime st.lpt cid now) := by
    simp only [checkPublishRate, hlast]
    rw [if_pos (by omega)]
  by_cases hh : isHttpMode st.dmm cid = true
  · simp [postDeviceS, optStrFalsy, hak, htgt, hsmall, hcidne, hdev, hcid,
      hratef2, hh]
  · simp [postDeviceS, optStrFalsy, hak, htgt, hsmall, hcidne, hdev, hcid,
      hratef2, hh]

set_option maxRecDepth 32768 in
/-- Witness for C9 at concrete inputs: device `"c"` posts 1025 bytes at
t=5000 (code 1004), then 1 byte at t=5500 (code 1005). -/
theorem C9_rate_check_before_size_check_witness :
    (postDeviceS defaultMessageConfig 5000
      { authKey := some ['k'], toDevice := some ['t'],
        data := some (List.replicate 1025 'a') } stSample (fun _ => none)
      (fun _ => [])).1 = 1004 ∧
    (postDeviceS defaultMessageConfig 5500
      { authKey := some ['k'], toDevice := some ['t'], data := some ['b'] }
      (postDeviceS defaultMessageConfig 5000
        { authKey := some ['k'], toDevice := some ['t'],
          data := some (List.replicate 1025 'a') } stSample (fun _ => none)
        (fun _ => [])).2 (fun _ => none) (fun _ => [])).1 = 1005 := by
  have h := C9_rate_check_before_size_check defaultMessageConfig 5000 5500
    stSample ['k'] ['c'] ['t'] (List.replicate 1025 'a') ['b'] devSampleC
    (fun _ => none) (fun _ => [])
    (by decide) (by decide)
    (by simp [stSample, alGet])
    (by decide) (by decide)
    (by norm_num [stSample, getLastPublishTime, alGet, defaultMessageConfig])
    (by norm_num [List.length_replicate, defaultMessageConfig])
    (by
      intro hEq
      have hlen := congrArg List.length hEq
      simp at hlen)
    (by decide) (by norm_num [defaultMessageConfig])
    (by norm_num [defaultMessageConfig])
  exact ⟨h.1, h.2.2⟩

theorem lookupD_cons_self (k : Str) (v : List Str)
    (rest : List (Str × List Str)) : lookupD ((k, v) :: rest) k = v := by
  simp [lookupD, alGet]

theorem lookupD_cons_ne (k g' : Str) (v : List Str)
    (rest : List (Str × List Str)) (hk : ¬ k = g') :
    lookupD ((k, v) :: rest) g' = lookupD rest g' := by
  simp [lookupD, alGet, hk]

theorem gmRemoveMember_cons_del (rest : List (Str × List Str))
    (g cid : Str) (v : List Str) (hv : v.erase cid = []) :
    gmRemoveMember ((g, v) :: rest) g cid = gmRemoveMember rest g cid := by
  simp [gmRemoveMember, hv]

theorem gmRemoveMember_cons_keep (rest : List (Str × List Str))
    (g cid : Str) (v : List Str) (hv : ¬ v.erase cid = []) :
    gmRemoveMember ((g, v) :: rest) g cid =
      (g, v.erase cid) :: gmRemoveMember rest g cid := by
  simp [gmRemoveMember, hv]

theorem gmRemoveMember_cons_ne (rest : List (Str × List Str))
    (k g cid : Str) (v : List Str) (hk : ¬ k = g) :
    gmRemoveMember ((k, v) :: rest) g cid =
      (k, v) :: gmRemoveMember rest g cid := by
  simp [gmRemoveMember, hk]

theorem lookupD_gmRemoveMember (gm : List (Str × List Str)) (g cid g' : Str)
    (hnd : (gm.map Prod.fst).Nodup) :
    lookupD (gmRemoveMember gm g cid) g' =
      if g' = g then (lookupD gm g).erase cid else lookupD gm g' := by
  induction gm with
  | nil =>
    by_cases h : g' = g <;> simp [gmRemoveMember, lookupD, alGet, h]
  | cons e rest ih =>
    obtain ⟨k, v⟩ := e
    simp only [List.map_cons, List.nodup_cons] at hnd
    have ih2 := ih hnd.2
    by_cases hk : k = g
    · subst hk
      have hrest : lookupD rest k = [] := by
        simp [lookupD, alGet_eq_none_of_not_mem rest k hnd.1]
      by_cases hv : v.erase cid = []
      · rw [gmRemoveMember_cons_del rest k cid v hv, ih2]
        by_cases hg : g' = k
        · subst hg
          simp [hrest, hv, lookupD_cons_self]
        · simp [hg, lookupD_cons_ne k g' v rest (fun hEq => hg hEq.symm)]
      · rw [gmRemoveMember_cons_keep rest k cid v hv]
        by_cases hg : g' = k
        · subst hg
          simp [lookupD_cons_self]
        · rw [lookupD_cons_ne k g' (v.erase cid) _ (fun hEq => hg hEq.symm),
            ih2, lookupD_cons_ne k g' v rest (fun hEq => hg hEq.symm)]
          simp [hg]
    · rw [gmRemoveMember_cons_ne rest k g cid v hk]
      by_cases hg : g' = k
      · subst hg
        simp [hk, lookupD_cons_self]
      · rw [lookupD_cons_ne k g' v _ (fun hEq => hg hEq.symm), ih2,
          lookupD_cons_ne k g' v rest (fun hEq => hg hEq.symm)]
        by_cases hgG : g' = g
        · subst hgG
          simp [lookupD_cons_ne k g' v rest (fun hEq => hg hEq.symm)]
        · simp [hgG]

theorem gmAddMember_cons_self (rest : List (Str × List Str)) (k cid : Str)
    (v : List Str) :
    gmAddMember ((k, v) :: rest) k cid =
      (k, if cid ∈ v then v else v ++ [cid]) :: rest := by
  simp [gmAddMember]

theorem gmAddMember_cons_ne (rest : List (Str × List Str)) (k g cid : Str)
    (v : List Str) (hk : ¬ k = g) :
    gmAddMember ((k, v) :: rest) g cid = (k, v) :: gmAddMember rest g cid := by
  simp [gmAddMember, hk]

theorem lookupD_gmAddMember (gm : List (Str × List Str)) (g cid g' : Str) :
    lookupD (gmAddMember gm g cid) g' =
      if g' = g then
        (if cid ∈ lookupD gm g then lookupD gm g else lookupD gm g ++ [cid])
      else lookupD gm g' := by
  induction gm with
  | nil =>
    by_cases h : g' = g
    · subst h
      simp [gmAddMember, lookupD, alGet]
    · have h2 : ¬ g = g' := fun hEq => h hEq.symm
      simp [gmAddMember, lookupD, alGet, h, h2]
  | cons e rest ih =>
    obtain ⟨k, v⟩ := e
    by_cases hk : k = g
    · rw [hk, gmAddMember_cons_self rest g cid v]
      by_cases hg : g' = g
      · subst hg
        simp [lookupD_cons_self]
      · rw [lookupD_cons_ne g g' _ rest (fun hEq => hg hEq.symm),
          lookupD_cons_ne g g' v rest (fun hEq => hg hEq.symm)]
        simp [hg]
    · rw [gmAddMember_cons_ne rest k g cid v hk]
      by_cases hg : g' = k
      · subst hg
        have hgg : ¬ g' = g := fun hEq => hk (hEq ▸ rfl)
        simp [hgg, lookupD_cons_self]
      · rw [lookupD_cons_ne k g' v _ (fun hEq => hg hEq.symm), ih,
          lookupD_cons_ne k g' v rest (fun hEq => hg hEq.symm)]
        by_cases hgG : g' = g
        · subst hgG
          simp [lookupD_cons_ne k g' v rest (fun hEq => hg hEq.symm)]
        · simp [hgG]

theorem alGet_mem {β : Type} (m : List (Str × β)) (k : Str) (v : β)
    (h : alGet m k = some v) : (k, v) ∈ m := by
  induction m with
  | nil => cases h
  | cons e rest ih =>
    obtain ⟨k2, v2⟩ := e
    by_cases hk : k2 = k
    · subst hk
      simp only [alGet, if_pos rfl] at h
      cases h
      exact List.mem_cons_self _ _
    · simp only [alGet, if_neg hk] at h
      exact List.mem_cons_of_mem _ (ih h)

theorem lookupD_nodup (gm : List (Str × List Str)) (g : Str)
    (h : gmWF gm) : (lookupD gm g).Nodup := by
  cases hg : alGet gm g with
  | none => simp [lookupD, hg]
  | some v =>
    have := (h.2 (g, v) (alGet_mem gm g v hg)).2
    simpa [lookupD, hg] using this

theorem lookupD_ne_nil_mem (gm : List (Str × List Str)) (g : Str)
    (h : lookupD gm g ≠ []) : (g, lookupD gm g) ∈ gm := by
  cases hg : alGet gm g with
  | none => simp [lookupD, hg] at h
  | some v =>
    have hm := alGet_mem gm g v hg
    simpa [lookupD, hg] using hm

theorem gmRemoveMember_keys_sublist (gm : List (Str × List Str))
    (g cid : Str) :
    ((gmRemoveMember gm g cid).map Prod.fst).Sublist
      (gm.map Prod.fst) := by
  induction gm with
  | nil => simp [gmRemoveMember]
  | cons e rest ih =>
    obtain ⟨k, v⟩ := e
    by_cases hk : k = g
    · subst hk
      by_cases hv : v.erase cid = []
      · rw [gmRemoveMember_cons_del rest k cid v hv]
        exact ih.cons k
      · rw [gmRemoveMember_cons_keep rest k cid v hv]
        simpa using ih.cons₂ k
    · rw [gmRemoveMember_cons_ne rest k g cid v hk]
      simpa using ih.cons₂ k

theorem gmWF_gmRemoveMember (gm : List (Str × List Str)) (g cid : Str)
    (h : gmWF gm) : gmWF (gmRemoveMember gm g cid) := by
  constructor
  · exact (gmRemoveMember_keys_sublist gm g cid).nodup h.1
  · intro e he
    induction gm with
    | nil => simp [gmRemoveMember] at he
    | cons e2 rest ih =>
      obtain ⟨k, v⟩ := e2
      have hWFrest : gmWF rest :=
        ⟨(List.nodup_cons.mp (by simpa using h.1)).2,
          fun x hx => h.2 x (List.mem_cons_of_mem _ hx)⟩
      have hkv := h.2 (k, v) (List.mem_cons_self _ _)
      by_cases hk : k = g
      · subst hk
        by_cases hv : v.erase cid = []
        · rw [gmRemoveMember_cons_del rest k cid v hv] at he
          exact ih hWFrest he
        · rw [gmRemoveMember_cons_keep rest k cid v hv] at he
          cases he with
          | head =>
            exact ⟨hv, hkv.2.erase cid⟩
          | tail _ htl => exact ih hWFrest htl
      · rw [gmRemoveMember_cons_ne rest k g cid v hk] at he
        cases he with
        | head => exact hkv
        | tail _ htl => exact ih hWFrest htl

theorem gmAddMember_keys (gm : List (Str × List Str)) (g cid : Str) :
    (gmAddMember gm g cid).map Prod.fst =
      if g ∈ gm.map Prod.fst then gm.map Prod.fst
      else gm.map Prod.fst ++ [g] := by
  induction gm with
  | nil => simp [gmAddMember]
  | cons e rest ih =>
    obtain ⟨k, v⟩ := e
    by_cases hk : k = g
    · rw [hk, gmAddMember_cons_self rest g cid v]
      simp
    · rw [gmAddMember_cons_ne rest k g cid v hk]
      have hne : ¬ g = k := fun hEq => hk hEq.symm
      simp only [List.map_cons, List.mem_cons, hne, false_or, ih]
      by_cases hmem : g ∈ rest.map Prod.fst <;> simp [hmem]

theorem gmWF_gmAddMember (gm : List (Str × List Str)) (g cid : Str)
    (h : gmWF gm) : gmWF (gmAddMember gm g cid) := by
  constructor
  · rw [gmAddMember_keys]
    by_cases hmem : g ∈ gm.map Prod.fst
    · simpa [hmem] using h.1
    · simp only [hmem, if_neg, ite_false]
      simp [List.nodup_append, h.1, hmem]
  · intro e he
    induction gm with
    | nil =>
      simp only [gmAddMember] at he
      cases he with
      | head => exact ⟨by simp, by simp⟩
      | tail _ htl => cases htl
    | cons e2 rest ih =>
      obtain ⟨k, v⟩ := e2
      have hWFrest : gmWF rest :=
        ⟨(List.nodup_cons.mp (by simpa using h.1)).2,
          fun x hx => h.2 x (List.mem_cons_of_mem _ hx)⟩
      have hkv := h.2 (k, v) (List.mem_cons_self _ _)
      by_cases hk : k = g
      · rw [hk, gmAddMember_cons_self rest g cid v] at he
        cases he with
        | head =>
          by_cases hcv : cid ∈ v
          · simpa [hcv] using hkv
          · refine ⟨by simp [hcv], ?_⟩
            simp only [hcv, ite_false]
            simp [List.nodup_append, hkv.2, hcv]
        | tail _ htl =>
          exact hWFrest.2 _ htl
      · rw [gmAddMember_cons_ne rest k g cid v hk] at he
        cases he with
        | head => exact hkv
        | tail _ htl => exact ih hWFrest htl

theorem mem_lookupD_gmRemoveMember (gm : List (Str × List Str))
    (g cid g' c : Str) (h : gmWF gm) :
    (c ∈ lookupD (gmRemoveMember gm g cid) g' ↔
      c ∈ lookupD gm g' ∧ ¬ (c = cid ∧ g' = g)) := by
  rw [lookupD_gmRemoveMember gm g cid g' h.1]
  by_cases hg : g' = g
  · subst hg
    rw [if_pos rfl, (lookupD_nodup gm g' h).mem_erase_iff]
    constructor
    · rintro ⟨hne, hmem⟩
      exact ⟨hmem, fun hx => hne hx.1⟩
    · rintro ⟨hmem, hne⟩
      exact ⟨fun hx => hne ⟨hx, rfl⟩, hmem⟩
  · simp [hg]

theorem mem_lookupD_gmAddMember (gm : List (Str × List Str))
    (g cid g' c : Str) :
    (c ∈ lookupD (gmAddMember gm g cid) g' ↔
      c ∈ lookupD gm g' ∨ (c = cid ∧ g' = g)) := by
  rw [lookupD_gmAddMember gm g cid g']
  by_cases hg : g' = g
  · subst hg
    rw [if_pos rfl]
    by_cases hcv : cid ∈ lookupD gm g'
    · rw [if_pos hcv]
      constructor
      · intro hm
        exact Or.inl hm
      · rintro (hm | ⟨hEq, _⟩)
        · exact hm
        · exact hEq ▸ hcv
    · rw [if_neg hcv]
      simp only [List.mem_append, List.mem_singleton]
      constructor
      · rintro (hm | hEq)
        · exact Or.inl hm
        · exact Or.inr ⟨hEq, by trivial⟩
      · rintro (hm | ⟨hEq, _⟩)
        · exact Or.inl hm
        · exact Or.inr hEq
  · simp [hg]

theorem removeFold_WF (L : List Str) (cid : Str) :
    ∀ gm : List (Str × List Str), gmWF gm →
      gmWF (L.foldl (fun m x => gmRemoveMember m x cid) gm) := by
  induction L with
  | nil => intro gm h; exact h
  | cons x xs ih =>
    intro gm h
    exact ih _ (gmWF_gmRemoveMember gm x cid h)

theorem addFold_WF (L : List Str) (cid : Str) :
    ∀ gm : List (Str × List Str), gmWF gm →
      gmWF (L.foldl (fun m x => gmAddMember m x cid) gm) := by
  induction L with
  | nil => intro gm h; exact h
  | cons x xs ih =>
    intro gm h
    exact ih _ (gmWF_gmAddMember gm x cid h)

theorem mem_lookupD_removeFold (L : List Str) (cid c g : Str) :
    ∀ gm : List (Str × List Str), gmWF gm →
      (c ∈ lookupD (L.foldl (fun m x => gmRemoveMember m x cid) gm) g ↔
        c ∈ lookupD gm g ∧ ¬ (c = cid ∧ g ∈ L)) := by
  induction L with
  | nil => intro gm _; simp
  | cons x xs ih =>
    intro gm h
    rw [List.foldl_cons, ih _ (gmWF_gmRemoveMember gm x cid h),
      mem_lookupD_gmRemoveMember gm x cid g c h]
    constructor
    · rintro ⟨⟨hm, hx⟩, hxs⟩
      refine ⟨hm, ?_⟩
      rintro ⟨hEq, hmem⟩
      cases hmem with
      | head => exact hx ⟨hEq, rfl⟩
      | tail _ htl => exact hxs ⟨hEq, htl⟩
    · rintro ⟨hm, hno⟩
      refine ⟨⟨hm, ?_⟩, ?_⟩
      · rintro ⟨hEq, hgx⟩
        exact hno ⟨hEq, hgx ▸ List.mem_cons_self x xs⟩
      · rintro ⟨hEq, htl⟩
        exact hno ⟨hEq, List.mem_cons_of_mem x htl⟩

theorem mem_lookupD_addFold (L : List Str) (cid c g : Str) :
    ∀ gm : List (Str × List Str),
      (c ∈ lookupD (L.foldl (fun m x => gmAddMember m x cid) gm) g ↔
        c ∈ lookupD gm g ∨ (c = cid ∧ g ∈ L)) := by
  induction L with
  | nil => intro gm; simp
  | cons x xs ih =>
    intro gm
    rw [List.foldl_cons, ih _, mem_lookupD_gmAddMember gm x cid g c]
    constructor
    · rintro ((hm | ⟨hEq, hgx⟩) | ⟨hEq, htl⟩)
      · exact Or.inl hm
      · exact Or.inr ⟨hEq, hgx ▸ List.mem_cons_self x xs⟩
      · exact Or.inr ⟨hEq, List.mem_cons_of_mem x htl⟩
    · rintro (hm | ⟨hEq, hmem⟩)
      · exact Or.inl (Or.inl hm)
      · cases hmem with
        | head => exact Or.inl (Or.inr ⟨hEq, rfl⟩)
        | tail _ htl => exact Or.inr ⟨hEq, htl⟩

theorem lookupD_alSet (m : List (Str × List Str)) (k k' : Str)
    (v : List Str) :
    lookupD (alSet m k v) k' = if k = k' then v else lookupD m k' := by
  rw [lookupD, alGet_alSet]
  by_cases h : k = k' <;> simp [h, lookupD]

theorem mem_getGroupMembers_setDeviceGroups (st : GroupIndex) (cid : Str)
    (names : List Str) (c g : Str) (hWF : gmWF st.groupMembersMap)
    (hcoh : ∀ c2 g2, c2 ∈ lookupD st.groupMembersMap g2 ↔
      g2 ∈ lookupD st.deviceGroupsMap c2) :
    (c ∈ getGroupMembers (setDeviceGroups st cid names) g ↔
      (if c = cid then g ∈ names else c ∈ getGroupMembers st g)) := by
  show (c ∈ lookupD ((lookupD st.deviceGroupsMap cid).filter
      (fun g2 => ¬ names.contains g2) |>.foldl
        (fun gm g2 => gmRemoveMember gm g2 cid) st.groupMembersMap |>
      (names.foldl (fun gm g2 => gmAddMember gm g2 cid) ·)) g ↔ _)
  rw [mem_lookupD_addFold names cid c g, mem_lookupD_removeFold _ cid c g
    st.groupMembersMap hWF]
  have hfilter : ∀ x : Str,
      x ∈ (lookupD st.deviceGroupsMap cid).filter
        (fun g2 => ¬ names.contains g2) ↔
      x ∈ lookupD st.deviceGroupsMap cid ∧ x ∉ names := by
    intro x
    simp [List.mem_filter]
  by_cases hc : c = cid
  · subst hc
    simp only [if_pos rfl]
    constructor
    · rintro (⟨hm, hno⟩ | ⟨_, hmem⟩)
      · by_contra hgn
        exact hno ⟨by trivial, (hfilter g).mpr ⟨(hcoh c g).mp hm, hgn⟩⟩
      · exact hmem
    · intro hmem
      exact Or.inr ⟨by trivial, hmem⟩
  · simp only [if_neg hc]
    constructor
    · rintro (⟨hm, _⟩ | ⟨hEq, _⟩)
      · exact hm
      · exact absurd hEq hc
    · intro hm
      exact Or.inl ⟨hm, fun hx => hc hx.1⟩

theorem setDeviceGroups_WF (st : GroupIndex) (cid : Str)
    (names : List Str) (hWF : gmWF st.groupMembersMap) :
    gmWF (setDeviceGroups st cid names).groupMembersMap :=
  addFold_WF names cid _ (removeFold_WF _ cid st.groupMembersMap hWF)

theorem applyGroupCalls_invariant (calls : List (Str × List Str)) :
    ∀ st : GroupIndex, gmWF st.groupMembersMap →
      (∀ c g, c ∈ lookupD st.groupMembersMap g ↔
        g ∈ lookupD st.deviceGroupsMap c) →
      gmWF (applyGroupCalls calls st).groupMembersMap ∧
      (∀ c g, c ∈ lookupD (applyGroupCalls calls st).groupMembersMap g ↔
        g ∈ lookupD (applyGroupCalls calls st).deviceGroupsMap c) := by
  induction calls with
  | nil => intro st h1 h2; exact ⟨h1, h2⟩
  | cons call rest ih =>
    intro st h1 h2
    obtain ⟨cid, names⟩ := call
    have hWF1 : gmWF (setDeviceGroups st cid names).groupMembersMap :=
      setDeviceGroups_WF st cid names h1
    have hcoh1 : ∀ c g,
        c ∈ lookupD (setDeviceGroups st cid names).groupMembersMap g ↔
        g ∈ lookupD (setDeviceGroups st cid names).deviceGroupsMap c := by
      intro c g
      have hchar := mem_getGroupMembers_setDeviceGroups st cid names c g h1 h2
      rw [getGroupMembers, getGroupMembers] at hchar
      rw [hchar]
      show _ ↔ g ∈ lookupD (alSet st.deviceGroupsMap cid names) c
      rw [lookupD_alSet]
      by_cases hc : c = cid
      · subst hc
        simp [h2]
      · have hc2 : ¬ cid = c := fun hEq => hc hEq.symm
        simp [hc, hc2, h2]
    exact ih (setDeviceGroups st cid names) hWF1 hcoh1

/-- C3: starting from the empty cache, after any sequence of
`setDeviceGroups` calls the reverse index is coherent with the forward
index (`c ∈ groupMembers[g] ⇔ g ∈ deviceGroups[c]`), every stored member
set is nonempty (a set that becomes empty is deleted with its key), and
one further `setDeviceGroups(cid, names)` call leaves exactly the listed
memberships for `cid` — removing it from every group not in the new list
and inserting it into all listed groups — while leaving every other
client's memberships unchanged. -/
theorem C3_group_reverse_index_coherence (calls : List (Str × List Str)) :
    (∀ c g, c ∈ getGroupMembers (applyGroupCalls calls emptyGroupIndex) g ↔
      g ∈ lookupD
        (applyGroupCalls calls emptyGroupIndex).deviceGroupsMap c)
    ∧ (∀ e ∈ (applyGroupCalls calls emptyGroupIndex).groupMembersMap,
        e.2 ≠ [])
    ∧ (∀ (cid : Str) (names : List Str) (c g : Str),
        c ∈ getGroupMembers
          (setDeviceGroups (applyGroupCalls calls emptyGroupIndex) cid
            names) g ↔
        (if c = cid then g ∈ names else
          c ∈ getGroupMembers (applyGroupCalls calls emptyGroupIndex)
            g)) := by
  have hbase1 : gmWF (emptyGroupIndex.groupMembersMap) := by
    constructor
    · simp [emptyGroupIndex]
    · intro e he
      simp [emptyGroupIndex] at he
  have hbase2 : ∀ c g, c ∈ lookupD emptyGroupIndex.groupMembersMap g ↔
      g ∈ lookupD emptyGroupIndex.deviceGroupsMap c := by
    intro c g
    simp [emptyGroupIndex, lookupD, alGet]
  have h := applyGroupCalls_invariant calls emptyGroupIndex hbase1 hbase2
  refine ⟨h.2, ?_, ?_⟩
  · intro e he
    exact (h.1.2 e he).1
  · intro cid names c g
    exact mem_getGroupMembers_setDeviceGroups _ cid names c g h.1 h.2

/-- Witness for C3 at concrete inputs: after `setDeviceGroups("a", ["g"])`
from the empty cache, group `"g"` holds exactly `"a"` (nonempty entry,
coherent with the forward index), and a further
`setDeviceGroups("a", [])` removes the membership. -/
theorem C3_group_reverse_index_coherence_witness :
    ((['a'] ∈ getGroupMembers
        (applyGroupCalls [(['a'], [['g']])] emptyGroupIndex) ['g']) ↔
      (['g'] ∈ lookupD
        (applyGroupCalls [(['a'], [['g']])]
          emptyGroupIndex).deviceGroupsMap ['a'])) ∧
    ((['g'], [['a']]) ∈
      (applyGroupCalls [(['a'], [['g']])]
        emptyGroupIndex).groupMembersMap ∧
      ([['a']] : List Str) ≠ []) ∧
    (¬ ['a'] ∈ getGroupMembers
      (setDeviceGroups (applyGroupCalls [(['a'], [['g']])] emptyGroupIndex)
        ['a'] []) ['g']) := by
  have h := C3_group_reverse_index_coherence [(['a'], [['g']])]
  have hmem : (['g'], [['a']]) ∈
      (applyGroupCalls [(['a'], [['g']])]
        emptyGroupIndex).groupMembersMap := by
    decide
  refine ⟨h.1 ['a'] ['g'], ⟨hmem, h.2.1 (['g'], [['a']]) hmem⟩, ?_⟩
  have h3 := h.2.2 ['a'] [] ['a'] ['g']
  intro hx
  have := h3.mp hx
  simp at this
